import Mathlib

/-!
Shallow embedding of the repository's programs, claim by claim:
Capstone/energy_dashboard.py, Lab 3/library_inventory_manager.py and
Lab 4/weather_data_visualizer.py, with theorems checking the
natural-language specification against this embedding.
-/

namespace EnergyDashboard

/-- Value of a kwh cell as pandas read_csv materialises it: a number, a
non-numeric string, or a missing value (NaN). -/
inductive Cell where
  | num (q : ℚ)
  | strv (s : String)
  | na
deriving DecidableEq

/-- Parsed timestamp: calendar day index and minute of day.  pandas
to_datetime yields such a point; resample groups by the day component. -/
structure Timestamp where
  day : Int
  minute : Nat
deriving DecidableEq

/-- Raw timestamp cell: either a string pd.to_datetime parses (kept as its
parsed value) or one it raises on. -/
inductive TsCell where
  | valid (t : Timestamp)
  | invalid (s : String)
deriving DecidableEq

/-- Result of pd.to_datetime on one cell: some t on success, none = raise. -/
def parseTs : TsCell → Option Timestamp
  | TsCell.valid t => some t
  | TsCell.invalid _ => none

/-- One data row of a CSV file having the two required columns. -/
structure CsvRow where
  timestamp : TsCell
  kwh : Cell
deriving DecidableEq

/-- One input CSV file, as the glob loop sees it: its stem (building name),
whether pd.read_csv succeeds, which required columns it has, and its rows. -/
structure CsvFile where
  stem : String
  readable : Bool
  hasTimestampCol : Bool
  hasKwhCol : Bool
  rows : List CsvRow
deriving DecidableEq

/-- MeterReading as constructed at energy_dashboard.py:96: the raw cell
values, no validation. -/
structure MeterReading where
  timestamp : TsCell
  kwh : Cell
deriving DecidableEq

def mkMeterReading (r : CsvRow) : MeterReading := ⟨r.timestamp, r.kwh⟩

/-- State of Building.df: the initial empty DataFrame, the raw frame left
when pd.to_datetime raised inside process_readings (line 48), or the
fully processed, timestamp-sorted frame. -/
inductive BDf where
  | empty
  | raw (rows : List CsvRow)
  | processed (rows : List (Timestamp × Cell))
deriving DecidableEq

structure Building where
  name : String
  readings : List MeterReading
  df : BDf
deriving DecidableEq

/-- Ordering that sort_index uses on the DatetimeIndex. -/
def tsLE (a b : Timestamp × Cell) : Prop :=
  a.1.day < b.1.day ∨ (a.1.day = b.1.day ∧ a.1.minute ≤ b.1.minute)

instance : DecidableRel tsLE := fun a b =>
  inferInstanceAs (Decidable (a.1.day < b.1.day ∨ (a.1.day = b.1.day ∧ a.1.minute ≤ b.1.minute)))

/-- Parse every reading's timestamp (pd.to_datetime over the column);
none = the call raises on some cell. -/
def parseReadings : List MeterReading → Option (List (Timestamp × Cell))
  | [] => some []
  | r :: rs =>
    match parseTs r.timestamp, parseReadings rs with
    | some t, some rest => some ((t, r.kwh) :: rest)
    | _, _ => none

/-- Building.process_readings (lines 42-50): empty readings return early;
otherwise build the frame, parse timestamps (raising leaves the raw frame
assigned at line 47), set the index and sort. The Bool records whether the
call raised. -/
def process_readings (b : Building) : Building × Bool :=
  if b.readings.isEmpty then (b, false)
  else
    match parseReadings b.readings with
    | some prs => (⟨b.name, b.readings, BDf.processed (List.insertionSort tsLE prs)⟩, false)
    | none => (⟨b.name, b.readings, BDf.raw (b.readings.map (fun r => ⟨r.timestamp, r.kwh⟩))⟩, true)

/-- Row of the combined DataFrame after the final pd.to_datetime at line
111: parsed timestamp, kwh cell, owning building name. -/
structure CombinedRow where
  timestamp : Timestamp
  kwh : Cell
  building : String
deriving DecidableEq

/-- Raw tagged row awaiting the final pd.to_datetime of load_data. -/
structure TaggedRow where
  timestamp : TsCell
  kwh : Cell
  building : String
deriving DecidableEq

def parseTagged : List TaggedRow → Option (List CombinedRow)
  | [] => some []
  | r :: rs =>
    match parseTs r.timestamp, parseTagged rs with
    | some t, some rest => some (⟨t, r.kwh, r.building⟩ :: rest)
    | _, _ => none

inductive Level where
  | info
  | warning
  | error
deriving DecidableEq

structure LogEntry where
  level : Level
  msg : String
deriving DecidableEq

/-- Replace the first element satisfying p, as mutation through a dict
entry does. -/
def updateFirst (p : α → Bool) (g : α → α) : List α → List α
  | [] => []
  | x :: xs => if p x then g x :: xs else x :: updateFirst p g xs

/-- Accumulator of load_data's per-file loop: the buildings dict in
insertion order, the flattened all_data rows, and the log so far. -/
structure Accum where
  buildings : List Building
  allData : List TaggedRow
  log : List LogEntry
deriving DecidableEq

/-- The dict entry the file's rows go to: the existing Building if the
name is already present, else a fresh one (lines 90-92). -/
def oldB (bs : List Building) (f : CsvFile) : Building :=
  match bs.find? (fun b => b.name == f.stem) with
  | some b => b
  | none => ⟨f.stem, [], BDf.empty⟩

/-- The building object the file's rows are added to (lines 90-100): the
dict entry with every row of the file appended as a MeterReading with no
per-row validation, then run through process_readings.  The Bool is
whether process_readings raised. -/
def fileBuilding (bs : List Building) (f : CsvFile) : Building × Bool :=
  process_readings ⟨(oldB bs f).name, (oldB bs f).readings ++ f.rows.map mkMeterReading, (oldB bs f).df⟩

/-- Buildings dict after one iteration of load_data's file loop.  An
unreadable file raises in pd.read_csv before anything is mutated, and a
file missing the timestamp column or the kwh column is skipped at line
86; both leave the dict alone. -/
def stepBuildings (bs : List Building) (f : CsvFile) : List Building :=
  if ¬ f.readable then bs
  else if ¬ (f.hasTimestampCol && f.hasKwhCol) then bs
  else
    let pr := fileBuilding bs f
    if bs.any (fun b => b.name == f.stem) then
      updateFirst (fun b => b.name == f.stem) (fun _ => pr.1) bs
    else bs ++ [pr.1]

/-- Rows one iteration appends to all_data: the file's rows tagged with
the building name (line 103), unless the file was skipped or
process_readings raised first (the exception is caught after the readings
were already added, so the rows reach the building but not all_data). -/
def stepRows (bs : List Building) (f : CsvFile) : List TaggedRow :=
  if ¬ f.readable then []
  else if ¬ (f.hasTimestampCol && f.hasKwhCol) then []
  else if (fileBuilding bs f).2 then []
  else f.rows.map (fun r => ⟨r.timestamp, r.kwh, f.stem⟩)

/-- Log entries one iteration emits. -/
def stepLog (bs : List Building) (f : CsvFile) : List LogEntry :=
  if ¬ f.readable then [⟨Level.error, "Error reading file"⟩]
  else if ¬ (f.hasTimestampCol && f.hasKwhCol) then
    [⟨Level.error, "Skipping file: Missing required columns"⟩]
  else if (fileBuilding bs f).2 then [⟨Level.error, "Error reading file"⟩]
  else [⟨Level.info, "Loaded file"⟩]

/-- Body of the per-file try block of load_data (lines 77-107). -/
def loadStep (a : Accum) (f : CsvFile) : Accum :=
  ⟨stepBuildings a.buildings f, a.allData ++ stepRows a.buildings f,
    a.log ++ stepLog a.buildings f⟩

/-- All rows the loop of load_data accumulates into all_data, file by
file, threading the evolving buildings dict. -/
def allRowsOf (bs : List Building) : List CsvFile → List TaggedRow
  | [] => []
  | f :: fs => stepRows bs f ++ allRowsOf (stepBuildings bs f) fs

/-- Every reading of the building has a parseable timestamp. -/
def validB (b : Building) : Prop :=
  ∀ r ∈ b.readings, (parseTs r.timestamp).isSome

/-- A file whose rows, if it is loaded at all, all carry parseable
timestamps. -/
def goodFile (f : CsvFile) : Prop :=
  f.readable = true → f.hasTimestampCol = true → f.hasKwhCol = true →
    ∀ r ∈ f.rows, (parseTs r.timestamp).isSome

/-- State of the BuildingManager after load_data. -/
structure DState where
  buildings : List Building
  combined : List CombinedRow
  log : List LogEntry
deriving DecidableEq

/-- BuildingManager.load_data (lines 69-112).  No files at all is an early
warning return; otherwise the per-file loop runs, and the combined frame
is the concatenation of the appended frames with pd.to_datetime applied
to its timestamp column (line 111, outside any try: a parse failure there
would propagate, modelled as Except.error). -/
def load_data (files : List CsvFile) : Except Unit DState :=
  if files.isEmpty then
    Except.ok ⟨[], [], [⟨Level.warning, "No CSV files found"⟩]⟩
  else
    let a := files.foldl loadStep ⟨[], [], []⟩
    if a.allData.isEmpty then Except.ok ⟨a.buildings, [], a.log⟩
    else
      match parseTagged a.allData with
      | some comb =>
        Except.ok ⟨a.buildings, comb, a.log ++ [⟨Level.info, "Combined data loaded"⟩]⟩
      | none => Except.error ()

/-- Total number of readings accepted into the sources (sum of
Building.readings lengths, in dict order). -/
def acceptedSum (bs : List Building) : Nat :=
  (bs.map (fun b => b.readings.length)).sum

/-- Numeric value a cell contributes to a skipna sum: numbers themselves,
NaN contributes nothing. -/
def kwhNum : Cell → ℚ
  | Cell.num q => q
  | _ => 0

/-- Daily resample-sum of a processed frame at one calendar day. -/
def dailyKwhSum (rows : List (Timestamp × Cell)) (d : Int) : ℚ :=
  ((rows.filter (fun r => r.1.day == d)).map (fun r => kwhNum r.2)).sum

/-- Building.calculate_daily_totals (lines 52-55): the empty frame returns
an empty Series (every day reads as absent, 0 for summation); a processed
frame resamples by day and sums; the raw frame left by a to_datetime
failure has no DatetimeIndex, so resample raises (none). -/
def calculate_daily_totals : BDf → Option (Int → ℚ)
  | BDf.empty => some (fun _ => 0)
  | BDf.raw _ => none
  | BDf.processed rows => some (fun d => dailyKwhSum rows d)

/-- Daily-sum projection of a source built from the given readings list:
the readings are processed into the sorted frame (process_readings) and
resampled by day (calculate_daily_totals). -/
def dailyTotalsOf (nm : String) (rs : List MeterReading) : Option (Int → ℚ) :=
  calculate_daily_totals (process_readings ⟨nm, rs, BDf.empty⟩).1.df

def Cell.isStr : Cell → Bool
  | Cell.strv _ => true
  | _ => false

/-- pandas column sum as the report uses it: skipna over numbers; any
non-numeric string in the column makes the surrounding report code raise
(either in the sum itself or in the comparison/format that follows). -/
def colSumE (cells : List Cell) : Except Unit ℚ :=
  if cells.any Cell.isStr then Except.error ()
  else Except.ok ((cells.map kwhNum).sum)

def numVals (cells : List Cell) : List ℚ :=
  cells.filterMap (fun c => match c with | Cell.num q => some q | _ => none)

/-- Column mean with skipna; an all-NaN column yields NaN (none). -/
def colMean (cells : List Cell) : Option ℚ :=
  let vs := numVals cells
  if vs.isEmpty then none else some (vs.sum / vs.length)

/-- Column max with skipna; an all-NaN column yields NaN (none). -/
def colMax (cells : List Cell) : Option ℚ :=
  (numVals cells).max?

def BDf.kwhCells : BDf → List Cell
  | BDf.empty => []
  | BDf.raw rows => rows.map (fun r => r.kwh)
  | BDf.processed rows => rows.map (fun r => r.2)

/-- DataFrame.empty test on a Building.df. -/
def BDf.isEmptyDf : BDf → Bool
  | BDf.empty => true
  | BDf.raw rows => rows.isEmpty
  | BDf.processed rows => rows.isEmpty

/-- One row of building_summary.csv. -/
structure BStat where
  name : String
  total : ℚ
  avg : Option ℚ
  maxKwh : Option ℚ
deriving DecidableEq

/-- Per-building loop of generate_summary_report (lines 129-144), data
part: buildings with an empty frame are skipped, the others contribute
total/average/max of their kwh column, in dict (insertion) order. -/
def buildingStatsOf : List Building → Except Unit (List BStat)
  | [] => Except.ok []
  | b :: bs =>
    if b.df.isEmptyDf then buildingStatsOf bs
    else do
      let t ← colSumE b.df.kwhCells
      let rest ← buildingStatsOf bs
      pure (⟨b.name, t, colMean b.df.kwhCells, colMax b.df.kwhCells⟩ :: rest)

/-- One comparison of the highest_consumer fold (line 143): replace the
running pair only on a strictly greater total. -/
def hcStep (h : Option String × ℚ) (s : BStat) : Option String × ℚ :=
  if h.2 < s.total then (some s.name, s.total) else h

/-- highest_consumer fold of generate_summary_report: starts at (None, 0)
and replaces only on a strictly greater total (line 143). -/
def highestConsumerOf (stats : List BStat) : Option String × ℚ :=
  stats.foldl hcStep (none, 0)

/-- idxmax-based peak lookup (line 155): first row attaining the maximum
kwh value, NaN skipped; all-NaN raises. -/
def peakRow (rows : List CombinedRow) : Except Unit CombinedRow :=
  match (numVals (rows.map (fun r => r.kwh))).max? with
  | none => Except.error ()
  | some m =>
    match rows.find? (fun r => r.kwh == Cell.num m) with
    | some r => Except.ok r
    | none => Except.error ()

/-- Scalar content of the summary report. -/
structure Report where
  totalConsumption : ℚ
  buildingStats : List BStat
  highestConsumer : Option String × ℚ
  peak : Option CombinedRow
deriving DecidableEq

/-- BuildingManager.generate_summary_report (lines 114-170), numeric
content: grand total over the combined frame (0 when empty, line 122),
the per-building stats and the highest-consumer fold, and the peak row
when the combined frame is nonempty. -/
def generate_summary_report (st : DState) : Except Unit Report :=
  Except.bind
    (if st.combined.isEmpty then Except.ok 0 else colSumE (st.combined.map (fun r => r.kwh)))
    (fun total =>
      Except.bind (buildingStatsOf st.buildings) (fun stats =>
        Except.bind
          (if st.combined.isEmpty then Except.ok none else (peakRow st.combined).map some)
          (fun peak => Except.ok ⟨total, stats, highestConsumerOf stats, peak⟩)))

/-- The three artifacts generate_summary_report writes: summary.txt's
scalar content, building_summary.csv's rows, cleaned_energy_data.csv's
rows. -/
def reportOutputs (st : DState) : Except Unit (Report × List BStat × List CombinedRow) := do
  let r ← generate_summary_report st
  pure (r, r.buildingStats, st.combined)

/-- BuildingManager.create_dashboard (lines 172-223): with an empty
combined frame it logs a warning and returns without an image; otherwise
it renders the per-building frames into one image (rendering itself is
delegated to matplotlib and out of scope). -/
def create_dashboard (st : DState) : Option (List (String × BDf)) × List LogEntry :=
  if st.combined.isEmpty then (none, [⟨Level.warning, "No data to visualize"⟩])
  else (some (st.buildings.map (fun b => (b.name, b.df))), [⟨Level.info, "Dashboard saved"⟩])

end EnergyDashboard

/-- Python str.strip with no argument: drop leading and trailing
whitespace. -/
def pyStrip (s : String) : String :=
  String.mk (((s.data.dropWhile Char.isWhitespace).reverse.dropWhile Char.isWhitespace).reverse)

/-- Python str.lower on the character list. -/
def pyLower (s : String) : String :=
  String.mk (s.data.map Char.toLower)

namespace Library

/-- Book as library_inventory_manager.py holds it: four strings; the
constructor normalises them. -/
structure Book where
  title : String
  author : String
  isbn : String
  status : String
deriving DecidableEq

/-- The status value Book.__init__ line 29 computes: a falsy (empty)
status becomes "available", otherwise strip and lowercase. -/
def rawStatus (status : String) : String :=
  if status = "" then "available" else pyLower (pyStrip status)

/-- Status normalisation of Book.__init__ (lines 25-31): anything outside
the status set collapses to "available" (line 30). -/
def normalizeStatus (status : String) : String :=
  if rawStatus status = "available" ∨ rawStatus status = "issued" then rawStatus status
  else "available"

/-- Book.__init__: strip the three identity fields, normalise status. -/
def mkBook (title author isbn status : String) : Book :=
  ⟨pyStrip title, pyStrip author, pyStrip isbn, normalizeStatus status⟩

/-- Book.issue (lines 44-48): flips available to issued and reports
success, otherwise changes nothing and reports failure. -/
def Book.issue (b : Book) : Book × Bool :=
  if b.status = "available" then (⟨b.title, b.author, b.isbn, "issued"⟩, true)
  else (b, false)

/-- Book.return_book (lines 50-54). -/
def Book.return_book (b : Book) : Book × Bool :=
  if b.status = "issued" then (⟨b.title, b.author, b.isbn, "available"⟩, true)
  else (b, false)

/-- One persisted catalog entry (Book.to_dict's four fields). -/
structure BookRecord where
  title : String
  author : String
  isbn : String
  status : String
deriving DecidableEq

def Book.to_dict (b : Book) : BookRecord :=
  ⟨b.title, b.author, b.isbn, b.status⟩

/-- In-memory inventory plus the persisted catalog file: none when the
file does not exist, otherwise its full decoded content. -/
structure LibState where
  books : List Book
  file : Option (List BookRecord)
deriving DecidableEq

/-- LibraryInventory.save_books (lines 82-88): json.dump of the whole
current list, overwriting the file. -/
def save_books (st : LibState) : LibState :=
  ⟨st.books, some (st.books.map Book.to_dict)⟩

/-- LibraryInventory.load_books (lines 66-80) on a well-formed catalog
list: each entry goes through the Book constructor. -/
def loadBooks (records : List BookRecord) : List Book :=
  records.map (fun r => mkBook r.title r.author r.isbn r.status)

/-- LibraryInventory.search_by_isbn (lines 108-113): first book whose isbn
equals the stripped query. -/
def search_by_isbn (books : List Book) (isbn : String) : Option Book :=
  books.find? (fun b => b.isbn == pyStrip isbn)

def updateFirstBook (p : Book → Bool) (g : Book → Book) : List Book → List Book
  | [] => []
  | x :: xs => if p x then g x :: xs else x :: updateFirstBook p g xs

/-- Menu choice 2 of main (lines 151-158): look the book up by ISBN; `if
book and book.issue()` saves the whole catalog only when issue succeeded;
otherwise state and file stay as they were.  Returns the truthiness of
`book and book.issue()`. -/
def issueChoice (st : LibState) (isbn : String) : LibState × Bool :=
  match search_by_isbn st.books isbn with
  | none => (st, false)
  | some b =>
    if b.issue.2 then
      (save_books ⟨updateFirstBook (fun x => x.isbn == pyStrip isbn)
        (fun _ => b.issue.1) st.books, st.file⟩, true)
    else (st, false)

/-- Menu choice 3 of main (lines 159-166). -/
def returnChoice (st : LibState) (isbn : String) : LibState × Bool :=
  match search_by_isbn st.books isbn with
  | none => (st, false)
  | some b =>
    if b.return_book.2 then
      (save_books ⟨updateFirstBook (fun x => x.isbn == pyStrip isbn)
        (fun _ => b.return_book.1) st.books, st.file⟩, true)
    else (st, false)

/-- LibraryInventory.add_book (lines 90-102): require the three stripped
fields nonempty and the ISBN fresh, then append a Book built with the
default "available" status and save. -/
def add_book (st : LibState) (title author isbn : String) : LibState :=
  if pyStrip title = "" ∨ pyStrip author = "" ∨ pyStrip isbn = "" then st
  else if st.books.any (fun b => b.isbn == pyStrip isbn) then st
  else save_books ⟨st.books ++
    [mkBook (pyStrip title) (pyStrip author) (pyStrip isbn) "available"], st.file⟩

/-- The catalog-mutating operations reachable from the menu loop. -/
inductive LibOp where
  | add (title author isbn : String)
  | issue (isbn : String)
  | ret (isbn : String)

def applyOp (st : LibState) : LibOp → LibState
  | LibOp.add t a i => add_book st t a i
  | LibOp.issue i => (issueChoice st i).1
  | LibOp.ret i => (returnChoice st i).1

def applyOps (ops : List LibOp) (st : LibState) : LibState :=
  ops.foldl applyOp st

/-- The status invariant of implicit claim C10. -/
def statusInv (b : Book) : Prop :=
  b.status = "available" ∨ b.status = "issued"

end Library

namespace Weather

/-- Python str.strip of all leading and trailing double-quote characters. -/
def stripQuotes (s : String) : String :=
  String.mk (((s.data.dropWhile (fun c => c = '"')).reverse.dropWhile (fun c => c = '"')).reverse)

/-- Cleaning applied to the interactively entered path (line 366):
input().strip().strip of quotes. -/
def cleanPrompt (s : String) : String :=
  stripQuotes (pyStrip s)

/-- main of weather_data_visualizer.py (lines 359-402), control flow: the
path is the --csv argument when it is truthy, otherwise the cleaned
interactive answer; a missing file exits 2; a load_and_clean failure exits
3; otherwise the run completes with 0.  The environment is abstracted as
two oracles: file existence and load_and_clean success per path.  Returns
the exit code and whether the prompt was shown. -/
def wmain (csvArg : Option String) (promptInput : String)
    (fileExists : String → Bool) (loadOk : String → Bool) : Nat × Bool :=
  let pick : String × Bool :=
    match csvArg with
    | some s => if s = "" then (cleanPrompt promptInput, true) else (s, false)
    | none => (cleanPrompt promptInput, true)
  if ¬ fileExists pick.1 then (2, pick.2)
  else if ¬ loadOk pick.1 then (3, pick.2)
  else (0, pick.2)

/-- The path main ends up operating on. -/
def resolvedPath (csvArg : Option String) (promptInput : String) : String :=
  match csvArg with
  | some s => if s = "" then cleanPrompt promptInput else s
  | none => cleanPrompt promptInput

/-- Environment oracle that always answers yes. -/
def constTrue (_ : String) : Bool := true

/-- Environment oracle that always answers no. -/
def constFalse (_ : String) : Bool := false

end Weather

namespace EnergyDashboard

/-- Input file A.csv of the row-with-unparseable-kwh scenario: one clean
row and one row whose kwh cell is the non-numeric string "oops". -/
def exBadKwhFile : CsvFile :=
  ⟨"A", true, true, true,
    [⟨TsCell.valid ⟨0, 480⟩, Cell.num 10⟩, ⟨TsCell.valid ⟨0, 1200⟩, Cell.strv "oops"⟩]⟩

/-- Input file B.csv whose single row has a timestamp pd.to_datetime
raises on. -/
def exBadTsFile : CsvFile :=
  ⟨"B", true, true, true, [⟨TsCell.invalid "notadate", Cell.num 3⟩]⟩

/-- Input file C.csv with a row whose kwh value is missing (NaN) next to a
clean row. -/
def exNaRowFile : CsvFile :=
  ⟨"C", true, true, true,
    [⟨TsCell.valid ⟨0, 60⟩, Cell.na⟩, ⟨TsCell.valid ⟨0, 120⟩, Cell.num 4⟩]⟩

/-- Input file D.csv that has a timestamp column but no kwh column. -/
def exMissingKwhColFile : CsvFile :=
  ⟨"D", true, true, false, [⟨TsCell.valid ⟨0, 0⟩, Cell.num 1⟩]⟩

/-- Loaded state of a single source A whose only reading is 0 kWh. -/
def exZeroState : DState :=
  ⟨[⟨"A", [⟨TsCell.valid ⟨0, 0⟩, Cell.num 0⟩], BDf.processed [(⟨0, 0⟩, Cell.num 0)]⟩],
    [⟨⟨0, 0⟩, Cell.num 0, "A"⟩], []⟩

end EnergyDashboard

namespace EnergyDashboard

theorem parseReadings_isSome (l : List MeterReading)
    (h : ∀ r ∈ l, (parseTs r.timestamp).isSome) :
    ∃ o, parseReadings l = some o := by
  induction l with
  | nil => exact ⟨[], rfl⟩
  | cons r rs ih =>
    obtain ⟨t, ht⟩ := Option.isSome_iff_exists.mp (h r (List.mem_cons_self r rs))
    obtain ⟨o, ho⟩ := ih (fun x hx => h x (List.mem_cons_of_mem _ hx))
    exact ⟨(t, r.kwh) :: o, by simp [parseReadings, ht, ho]⟩

theorem parseReadings_append (l1 l2 : List MeterReading) (o1 o2 : List (Timestamp × Cell))
    (h1 : parseReadings l1 = some o1) (h2 : parseReadings l2 = some o2) :
    parseReadings (l1 ++ l2) = some (o1 ++ o2) := by
  induction l1 generalizing o1 with
  | nil =>
    simp [parseReadings] at h1
    simp [h1, h2]
  | cons r rs ih =>
    simp only [parseReadings] at h1
    rcases ht : parseTs r.timestamp with _ | t <;> rw [ht] at h1
    · exact absurd h1 (by simp)
    rcases hrs : parseReadings rs with _ | rest <;> rw [hrs] at h1
    · exact absurd h1 (by simp)
    obtain rfl : (t, r.kwh) :: rest = o1 := by simpa using h1
    simp only [List.cons_append, parseReadings, ht, List.append_eq, ih rest hrs]

theorem parseTagged_isSome (l : List TaggedRow)
    (h : ∀ r ∈ l, (parseTs r.timestamp).isSome) :
    ∃ o, parseTagged l = some o ∧ o.length = l.length := by
  induction l with
  | nil => exact ⟨[], rfl, rfl⟩
  | cons r rs ih =>
    obtain ⟨t, ht⟩ := Option.isSome_iff_exists.mp (h r (List.mem_cons_self r rs))
    obtain ⟨o, ho, hlen⟩ := ih (fun x hx => h x (List.mem_cons_of_mem _ hx))
    exact ⟨⟨t, r.kwh, r.building⟩ :: o, by simp [parseTagged, ht, ho], by simp [hlen]⟩

theorem parseTagged_mem (l : List TaggedRow) (o : List CombinedRow)
    (h : parseTagged l = some o) (t : Timestamp) (k : Cell) (n : String)
    (hm : TaggedRow.mk (TsCell.valid t) k n ∈ l) : CombinedRow.mk t k n ∈ o := by
  induction l generalizing o with
  | nil => simp at hm
  | cons r rs ih =>
    simp only [parseTagged] at h
    rcases ht : parseTs r.timestamp with _ | t0 <;> rw [ht] at h
    · exact absurd h (by simp)
    rcases hrs : parseTagged rs with _ | rest <;> rw [hrs] at h
    · exact absurd h (by simp)
    obtain rfl : (⟨t0, r.kwh, r.building⟩ : CombinedRow) :: rest = o := by simpa using h
    rcases List.mem_cons.mp hm with heq | hmem
    · subst heq
      simp only [parseTs] at ht
      obtain rfl : t = t0 := by simpa using ht
      exact List.mem_cons_self _ _
    · exact List.mem_cons_of_mem _ (ih rest hrs hmem)

theorem process_readings_name (b : Building) : (process_readings b).1.name = b.name := by
  unfold process_readings
  split
  · rfl
  · rcases hp : parseReadings b.readings <;> simp [hp]

theorem process_readings_readings (b : Building) :
    (process_readings b).1.readings = b.readings := by
  unfold process_readings
  split
  · rfl
  · rcases hp : parseReadings b.readings <;> simp [hp]

theorem process_readings_ok (b : Building)
    (h : ∀ r ∈ b.readings, (parseTs r.timestamp).isSome) :
    (process_readings b).2 = false := by
  unfold process_readings
  split
  · rfl
  · obtain ⟨o, ho⟩ := parseReadings_isSome b.readings h
    simp [ho]

theorem foldl_loadStep_buildings (fs : List CsvFile) :
    ∀ a : Accum, (List.foldl loadStep a fs).buildings = List.foldl stepBuildings a.buildings fs := by
  induction fs with
  | nil => intro a; rfl
  | cons f fs ih => intro a; exact ih (loadStep a f)

theorem foldl_loadStep_allData (fs : List CsvFile) :
    ∀ a : Accum, (List.foldl loadStep a fs).allData = a.allData ++ allRowsOf a.buildings fs := by
  induction fs with
  | nil => intro a; simp [allRowsOf]
  | cons f fs ih =>
    intro a
    rw [List.foldl_cons, ih (loadStep a f)]
    show (a.allData ++ stepRows a.buildings f) ++ allRowsOf (stepBuildings a.buildings f) fs =
      a.allData ++ (stepRows a.buildings f ++ allRowsOf (stepBuildings a.buildings f) fs)
    exact List.append_assoc _ _ _

theorem foldl_loadStep_log (fs : List CsvFile) :
    ∀ a : Accum, ∃ δ, (List.foldl loadStep a fs).log = a.log ++ δ := by
  induction fs with
  | nil => intro a; exact ⟨[], by simp⟩
  | cons f fs ih =>
    intro a
    obtain ⟨δ, hδ⟩ := ih (loadStep a f)
    refine ⟨stepLog a.buildings f ++ δ, ?_⟩
    rw [List.foldl_cons, hδ]
    show (a.log ++ stepLog a.buildings f) ++ δ = a.log ++ (stepLog a.buildings f ++ δ)
    exact List.append_assoc _ _ _

theorem acceptedSum_append (bs : List Building) (b : Building) :
    acceptedSum (bs ++ [b]) = acceptedSum bs + b.readings.length := by
  simp [acceptedSum]

theorem acceptedSum_updateFirst (p : Building → Bool) (nb : Building) :
    ∀ (bs : List Building) (b : Building), bs.find? p = some b →
      acceptedSum (updateFirst p (fun _ => nb) bs) + b.readings.length =
        acceptedSum bs + nb.readings.length := by
  intro bs
  induction bs with
  | nil => intro b h; simp at h
  | cons x xs ih =>
    intro b h
    by_cases hx : p x
    · rw [List.find?_cons_of_pos _ hx] at h
      obtain rfl : x = b := by injection h
      simp only [updateFirst, hx, if_pos, acceptedSum, List.map_cons, List.sum_cons]
      omega
    · rw [List.find?_cons_of_neg _ hx] at h
      have hih := ih b h
      have hup : updateFirst p (fun _ => nb) (x :: xs) = x :: updateFirst p (fun _ => nb) xs := by
        simp [updateFirst, hx]
      rw [hup]
      simp only [acceptedSum, List.map_cons, List.sum_cons] at *
      omega

theorem mem_updateFirst (p : α → Bool) (g : α → α) :
    ∀ (l : List α) (x : α), x ∈ updateFirst p g l → x ∈ l ∨ ∃ y ∈ l, x = g y := by
  intro l
  induction l with
  | nil => intro x hx; simp [updateFirst] at hx
  | cons a as ih =>
    intro x hx
    by_cases ha : p a
    · simp only [updateFirst, ha, if_pos] at hx
      rcases List.mem_cons.mp hx with heq | hmem
      · exact Or.inr ⟨a, List.mem_cons_self a as, heq⟩
      · exact Or.inl (List.mem_cons_of_mem _ hmem)
    · simp only [updateFirst, ha, if_neg, not_false_iff] at hx
      rcases List.mem_cons.mp hx with heq | hmem
      · exact Or.inl (heq ▸ List.mem_cons_self a as)
      · rcases ih x hmem with h | ⟨y, hy, hxy⟩
        · exact Or.inl (List.mem_cons_of_mem _ h)
        · exact Or.inr ⟨y, List.mem_cons_of_mem _ hy, hxy⟩

end EnergyDashboard

namespace EnergyDashboard

theorem validB_oldB (bs : List Building) (f : CsvFile) (hbs : ∀ b ∈ bs, validB b) :
    validB (oldB bs f) := by
  intro r hr
  rcases hf : bs.find? (fun b => b.name == f.stem) with _ | b
  · simp only [oldB, hf] at hr
    simp at hr
  · simp only [oldB, hf] at hr
    exact hbs b (List.mem_of_find?_eq_some hf) r hr

theorem stepSkip (bs : List Building) (f : CsvFile)
    (h : f.readable = false ∨ f.hasTimestampCol = false ∨ f.hasKwhCol = false) :
    stepBuildings bs f = bs ∧ stepRows bs f = [] := by
  rcases h with h | h | h <;>
    exact ⟨by simp [stepBuildings, h], by simp [stepRows, h]⟩

theorem stepGood (bs : List Building) (f : CsvFile) (hr : f.readable = true)
    (hts : f.hasTimestampCol = true) (hk : f.hasKwhCol = true)
    (hbs : ∀ b ∈ bs, validB b) (hrows : ∀ r ∈ f.rows, (parseTs r.timestamp).isSome) :
    (∀ b ∈ stepBuildings bs f, validB b) ∧
    stepRows bs f = f.rows.map (fun r => ⟨r.timestamp, r.kwh, f.stem⟩) ∧
    acceptedSum (stepBuildings bs f) = acceptedSum bs + f.rows.length := by
  have hvOld : validB (oldB bs f) := validB_oldB bs f hbs
  have hvNew : ∀ r ∈ (oldB bs f).readings ++ f.rows.map mkMeterReading,
      (parseTs r.timestamp).isSome := by
    intro r hrm
    rcases List.mem_append.mp hrm with h | h
    · exact hvOld r h
    · obtain ⟨row, hrow, rfl⟩ := List.mem_map.mp h
      exact hrows row hrow
  have hfb2 : (fileBuilding bs f).2 = false := process_readings_ok _ hvNew
  have hfbr : (fileBuilding bs f).1.readings =
      (oldB bs f).readings ++ f.rows.map mkMeterReading := process_readings_readings _
  have hfbv : validB (fileBuilding bs f).1 := by
    intro r hrm
    rw [hfbr] at hrm
    exact hvNew r hrm
  have hsb : stepBuildings bs f =
      (if bs.any (fun b => b.name == f.stem) then
        updateFirst (fun b => b.name == f.stem) (fun _ => (fileBuilding bs f).1) bs
      else bs ++ [(fileBuilding bs f).1]) := by
    simp [stepBuildings, hr, hts, hk]
  refine ⟨?_, by simp [stepRows, hr, hts, hk, hfb2], ?_⟩
  · intro b hb
    rw [hsb] at hb
    by_cases hex : bs.any (fun b => b.name == f.stem)
    · rw [if_pos hex] at hb
      rcases mem_updateFirst _ _ bs b hb with hmem | ⟨y, _, rfl⟩
      · exact hbs b hmem
      · exact hfbv
    · rw [if_neg hex] at hb
      rcases List.mem_append.mp hb with hmem | hmem
      · exact hbs b hmem
      · obtain rfl : b = (fileBuilding bs f).1 := by simpa using hmem
        exact hfbv
  · rw [hsb]
    by_cases hex : bs.any (fun b => b.name == f.stem)
    · rw [if_pos hex]
      obtain ⟨x, hx, hpx⟩ := List.any_eq_true.mp hex
      have hfs : (List.find? (fun b => b.name == f.stem) bs).isSome := by
        rw [List.find?_isSome]
        exact ⟨x, hx, hpx⟩
      obtain ⟨b0, hfind⟩ := Option.isSome_iff_exists.mp hfs
      have hold : oldB bs f = b0 := by unfold oldB; rw [hfind]
      have hacc := acceptedSum_updateFirst (fun b => b.name == f.stem)
        (fileBuilding bs f).1 bs b0 hfind
      have hlen : (fileBuilding bs f).1.readings.length =
          b0.readings.length + f.rows.length := by
        rw [hfbr, hold]; simp
      omega
    · rw [if_neg hex]
      have hfind : bs.find? (fun b => b.name == f.stem) = none := by
        rw [List.find?_eq_none]
        intro x hx hpx
        exact hex (List.any_eq_true.mpr ⟨x, hx, hpx⟩)
      have hold : oldB bs f = ⟨f.stem, [], BDf.empty⟩ := by unfold oldB; rw [hfind]
      have hlen : (fileBuilding bs f).1.readings.length = f.rows.length := by
        rw [hfbr, hold]; simp
      rw [acceptedSum_append]
      omega

theorem loadInv (fs : List CsvFile) (hg : ∀ f ∈ fs, goodFile f) :
    ∀ bs, (∀ b ∈ bs, validB b) →
      (∀ b ∈ List.foldl stepBuildings bs fs, validB b) ∧
      (∀ r ∈ allRowsOf bs fs, (parseTs r.timestamp).isSome) ∧
      (allRowsOf bs fs).length + acceptedSum bs =
        acceptedSum (List.foldl stepBuildings bs fs) := by
  induction fs with
  | nil =>
    intro bs hbs
    exact ⟨by simpa using hbs, by simp [allRowsOf], by simp [allRowsOf]⟩
  | cons f fs ih =>
    intro bs hbs
    have hg' : ∀ x ∈ fs, goodFile x := fun x hx => hg x (List.mem_cons_of_mem _ hx)
    by_cases hskip : f.readable = false ∨ f.hasTimestampCol = false ∨ f.hasKwhCol = false
    · obtain ⟨hsb, hsr⟩ := stepSkip bs f hskip
      obtain ⟨iv, irows, ilen⟩ := ih hg' bs hbs
      refine ⟨?_, ?_, ?_⟩
      · intro b hb
        rw [List.foldl_cons, hsb] at hb
        exact iv b hb
      · intro r hrm
        simp only [allRowsOf, hsb, hsr, List.nil_append] at hrm
        exact irows r hrm
      · simp only [allRowsOf, hsb, hsr, List.nil_append, List.foldl_cons]
        exact ilen
    · push_neg at hskip
      have hr := eq_true_of_ne_false hskip.1
      have hts := eq_true_of_ne_false hskip.2.1
      have hk := eq_true_of_ne_false hskip.2.2
      have hrows : ∀ r ∈ f.rows, (parseTs r.timestamp).isSome :=
        hg f (List.mem_cons_self f fs) hr hts hk
      obtain ⟨gv, grows, gacc⟩ := stepGood bs f hr hts hk hbs hrows
      obtain ⟨iv, irows, ilen⟩ := ih hg' (stepBuildings bs f) gv
      refine ⟨?_, ?_, ?_⟩
      · intro b hb
        rw [List.foldl_cons] at hb
        exact iv b hb
      · intro r hrm
        simp only [allRowsOf] at hrm
        rcases List.mem_append.mp hrm with hm | hm
        · rw [grows] at hm
          obtain ⟨row, hrow, rfl⟩ := List.mem_map.mp hm
          exact hrows row hrow
        · exact irows r hm
      · simp only [allRowsOf, List.foldl_cons, List.length_append]
        have hlr : (stepRows bs f).length = f.rows.length := by rw [grows]; simp
        omega

end EnergyDashboard

namespace EnergyDashboard

theorem load_data_eq (files : List CsvFile) (hne : files.isEmpty = false) :
    load_data files =
      (if (List.foldl loadStep ⟨[], [], []⟩ files).allData.isEmpty then
        Except.ok ⟨(List.foldl loadStep ⟨[], [], []⟩ files).buildings, [],
          (List.foldl loadStep ⟨[], [], []⟩ files).log⟩
      else
        match parseTagged (List.foldl loadStep ⟨[], [], []⟩ files).allData with
        | some comb =>
          Except.ok ⟨(List.foldl loadStep ⟨[], [], []⟩ files).buildings, comb,
            (List.foldl loadStep ⟨[], [], []⟩ files).log ++ [⟨Level.info, "Combined data loaded"⟩]⟩
        | none => Except.error ()) := by
  simp [load_data, hne]

/-- C2 (amended): after load_data, the combined table's row count equals
the sum of per-source accepted row counts, provided every file that is
readable and has both required columns also has timestamps pd.to_datetime
accepts.  (Without that proviso a file's rows can be accepted into its
source but excluded from the combined table; see the counterexample.) -/
theorem c2_combined_count (files : List CsvFile) (hg : ∀ f ∈ files, goodFile f) :
    ∃ st, load_data files = Except.ok st ∧
      st.combined.length = acceptedSum st.buildings := by
  rcases hfe : files.isEmpty with _ | _
  · obtain ⟨hv, hrows, hlen⟩ := loadInv files hg [] (by simp)
    have hb : (List.foldl loadStep ⟨[], [], []⟩ files).buildings =
        List.foldl stepBuildings [] files := by
      simpa using foldl_loadStep_buildings files ⟨[], [], []⟩
    have hadr : (List.foldl loadStep ⟨[], [], []⟩ files).allData = allRowsOf [] files := by
      simpa using foldl_loadStep_allData files ⟨[], [], []⟩
    have hacc0 : acceptedSum ([] : List Building) = 0 := rfl
    rw [load_data_eq files hfe]
    rcases hempty : (List.foldl loadStep ⟨[], [], []⟩ files).allData.isEmpty with _ | _
    · rw [if_neg (by simp [hempty])]
      have hval : ∀ r ∈ (List.foldl loadStep ⟨[], [], []⟩ files).allData,
          (parseTs r.timestamp).isSome := by
        rw [hadr]; exact hrows
      obtain ⟨o, ho, holen⟩ := parseTagged_isSome _ hval
      rw [ho]
      refine ⟨_, rfl, ?_⟩
      show o.length = acceptedSum (List.foldl loadStep ⟨[], [], []⟩ files).buildings
      rw [hb, holen, hadr]
      omega
    · rw [if_pos (by simp [hempty])]
      refine ⟨_, rfl, ?_⟩
      show ([] : List CombinedRow).length =
        acceptedSum (List.foldl loadStep ⟨[], [], []⟩ files).buildings
      rw [hb]
      have h0 : (List.foldl loadStep ⟨[], [], []⟩ files).allData = [] :=
        List.isEmpty_iff.mp hempty
      rw [h0] at hadr
      rw [← hadr] at hlen
      simp only [List.length_nil] at *
      omega
  · refine ⟨⟨[], [], [⟨Level.warning, "No CSV files found"⟩]⟩, ?_, ?_⟩
    · simp [load_data, hfe]
    · simp [acceptedSum]

/-- C2 witness: a file whose kwh cells are partly non-numeric still has
all timestamps parseable, so the count equality holds for it. -/
theorem c2_witness : ∃ st, load_data [exBadKwhFile] = Except.ok st ∧
    st.combined.length = acceptedSum st.buildings := by
  refine c2_combined_count [exBadKwhFile] ?_
  intro f hf
  simp only [List.mem_singleton] at hf
  subst hf
  intro _ _ _ r hr
  fin_cases hr <;> rfl

/-- C2 counterexample: a single file with one row whose timestamp fails
to parse.  The row is accepted into the source (add_reading ran before
process_readings raised) yet the combined table is empty: 0 rows combined
against 1 accepted. -/
theorem c2_counterexample :
    (load_data [exBadTsFile]).map
      (fun st => (st.combined.length, acceptedSum st.buildings)) = Except.ok (0, 1) ∧
    (0 : Nat) ≠ 1 :=
  ⟨rfl, by decide⟩

end EnergyDashboard

namespace EnergyDashboard

/-- C1 (amended): load_data performs no per-row validation of the kwh
field.  For a readable single file with both required columns and
parseable timestamps, every row — including rows whose kwh cell is a
non-numeric string — is accepted into the source's readings, and every
row appears in the combined table. -/
theorem c1_bad_kwh_rows_kept (f : CsvFile) (hr : f.readable = true)
    (hts : f.hasTimestampCol = true) (hk : f.hasKwhCol = true)
    (hrows : ∀ r ∈ f.rows, (parseTs r.timestamp).isSome) :
    ∃ st, load_data [f] = Except.ok st ∧
      st.buildings.map (fun b => (b.name, b.readings)) =
        [(f.stem, f.rows.map mkMeterReading)] ∧
      ∀ r ∈ f.rows, ∀ t, r.timestamp = TsCell.valid t →
        CombinedRow.mk t r.kwh f.stem ∈ st.combined := by
  have hbs0 : ∀ b ∈ ([] : List Building), validB b := by simp
  obtain ⟨gv, grows, gacc⟩ := stepGood [] f hr hts hk hbs0 hrows
  have hsb : stepBuildings [] f = [(fileBuilding [] f).1] := by
    simp [stepBuildings, hr, hts, hk]
  have hold : oldB [] f = ⟨f.stem, [], BDf.empty⟩ := rfl
  have hname : (fileBuilding [] f).1.name = f.stem := by
    unfold fileBuilding
    rw [process_readings_name, hold]
  have hreads : (fileBuilding [] f).1.readings = f.rows.map mkMeterReading := by
    unfold fileBuilding
    rw [process_readings_readings, hold]
    simp
  have hfold : List.foldl loadStep ⟨[], [], []⟩ [f] =
      ⟨stepBuildings [] f, stepRows [] f, stepLog [] f⟩ := by
    simp [loadStep]
  rw [load_data_eq [f] rfl, hfold]
  rcases hre : f.rows with _ | ⟨r0, rrest⟩
  · rw [if_pos (by simp [grows, hre])]
    refine ⟨_, rfl, ?_, ?_⟩
    · show (stepBuildings [] f).map (fun b => (b.name, b.readings)) = _
      rw [hsb]
      simp [hname, hreads, hre]
    · intro r hrm
      simp at hrm
  · have hne : (stepRows [] f).isEmpty = false := by
      rw [grows, hre]
      simp
    rw [if_neg (by simp [hne])]
    have hval : ∀ x ∈ stepRows [] f, (parseTs x.timestamp).isSome := by
      rw [grows]
      intro x hx
      obtain ⟨row, hrow, rfl⟩ := List.mem_map.mp hx
      exact hrows row hrow
    obtain ⟨o, ho, holen⟩ := parseTagged_isSome _ hval
    rw [ho]
    refine ⟨_, rfl, ?_, ?_⟩
    · show (stepBuildings [] f).map (fun b => (b.name, b.readings)) = _
      rw [hsb]
      simp [hname, hreads, hre]
    · intro r hrm t hrt
      show CombinedRow.mk t r.kwh f.stem ∈ o
      refine parseTagged_mem (stepRows [] f) o ho t r.kwh f.stem ?_
      rw [grows]
      refine List.mem_map.mpr ⟨r, ?_, ?_⟩
      · rw [hre]
        exact hrm
      · rw [hrt]

/-- C1 witness: the two-row file with one non-numeric kwh satisfies the
hypotheses, so both of its rows are kept. -/
theorem c1_witness : ∃ st, load_data [exBadKwhFile] = Except.ok st ∧
    st.buildings.map (fun b => (b.name, b.readings)) =
      [(exBadKwhFile.stem, exBadKwhFile.rows.map mkMeterReading)] ∧
    ∀ r ∈ exBadKwhFile.rows, ∀ t, r.timestamp = TsCell.valid t →
      CombinedRow.mk t r.kwh exBadKwhFile.stem ∈ st.combined := by
  refine c1_bad_kwh_rows_kept exBadKwhFile rfl rfl rfl ?_
  intro r hr
  fin_cases hr <;> rfl

/-- C1 counterexample: the row whose kwh field fails numeric parsing is
not dropped — it appears in the combined table (and its sibling does
too), contradicting the claim that such a row appears in no aggregate. -/
theorem c1_counterexample :
    (load_data [exBadKwhFile]).map
      (fun st => decide (CombinedRow.mk ⟨0, 1200⟩ (Cell.strv "oops") "A" ∈ st.combined) &&
        decide ((Building.mk "A" (exBadKwhFile.rows.map mkMeterReading)
          (BDf.processed [(⟨0, 480⟩, Cell.num 10), (⟨0, 1200⟩, Cell.strv "oops")])) ∈ st.buildings)) =
      Except.ok true := rfl

end EnergyDashboard

namespace EnergyDashboard

/-- C4 (amended): a file missing the timestamp column or the kwh column —
either one, not only both — is skipped entirely with a logged error, and
the remaining files are still processed (the loaded model is exactly what
it would be without the bad file).  Rows are never skipped individually;
see the counterexample for a kept row with a missing kwh value. -/
theorem c4_missing_column_skips_file (f : CsvFile) (rest : List CsvFile)
    (hr : f.readable = true)
    (hcols : f.hasTimestampCol = false ∨ f.hasKwhCol = false) :
    (load_data (f :: rest)).map (fun st => (st.buildings, st.combined)) =
      (load_data rest).map (fun st => (st.buildings, st.combined)) ∧
    ∀ st, load_data (f :: rest) = Except.ok st →
      LogEntry.mk Level.error "Skipping file: Missing required columns" ∈ st.log := by
  obtain ⟨hsb, hsr⟩ := stepSkip [] f (Or.inr hcols)
  have hslog : stepLog [] f = [⟨Level.error, "Skipping file: Missing required columns"⟩] := by
    rcases hcols with h | h <;> simp [stepLog, hr, h]
  have hstep : loadStep ⟨[], [], []⟩ f =
      ⟨[], [], [⟨Level.error, "Skipping file: Missing required columns"⟩]⟩ := by
    simp [loadStep, hsb, hsr, hslog]
  cases rest with
  | nil =>
    have h1 : List.foldl loadStep ⟨[], [], []⟩ [f] =
        ⟨[], [], [⟨Level.error, "Skipping file: Missing required columns"⟩]⟩ := by
      rw [List.foldl_cons, hstep]
      rfl
    constructor
    · rw [load_data_eq [f] rfl, h1]
      rfl
    · intro st hst
      rw [load_data_eq [f] rfl, h1] at hst
      simp only [List.isEmpty_nil, if_true, Except.ok.injEq] at hst
      rw [← hst]
      simp
  | cons r rs =>
    have hA : List.foldl loadStep ⟨[], [], []⟩ (f :: r :: rs) =
        List.foldl loadStep
          ⟨[], [], [⟨Level.error, "Skipping file: Missing required columns"⟩]⟩ (r :: rs) := by
      rw [List.foldl_cons, hstep]
    have hAb : (List.foldl loadStep
          ⟨[], [], [⟨Level.error, "Skipping file: Missing required columns"⟩]⟩ (r :: rs)).buildings =
        (List.foldl loadStep ⟨[], [], []⟩ (r :: rs)).buildings := by
      rw [foldl_loadStep_buildings, foldl_loadStep_buildings]
    have hAd : (List.foldl loadStep
          ⟨[], [], [⟨Level.error, "Skipping file: Missing required columns"⟩]⟩ (r :: rs)).allData =
        (List.foldl loadStep ⟨[], [], []⟩ (r :: rs)).allData := by
      rw [foldl_loadStep_allData, foldl_loadStep_allData]
    constructor
    · rw [load_data_eq (f :: r :: rs) rfl, load_data_eq (r :: rs) rfl, hA, hAd]
      rcases hc : (List.foldl loadStep ⟨[], [], []⟩ (r :: rs)).allData.isEmpty with _ | _
      · rw [if_neg (by simp [hc]), if_neg (by simp [hc])]
        rcases hp : parseTagged (List.foldl loadStep ⟨[], [], []⟩ (r :: rs)).allData with _ | comb
        · rfl
        · simp only [hAb]
          rfl
      · rw [if_pos (by simp [hc]), if_pos (by simp [hc])]
        simp only [hAb]
        rfl
    · intro st hst
      rw [load_data_eq (f :: r :: rs) rfl, hA] at hst
      obtain ⟨δ, hδ⟩ := foldl_loadStep_log (r :: rs)
        ⟨[], [], [⟨Level.error, "Skipping file: Missing required columns"⟩]⟩
      split at hst
      · simp only [Except.ok.injEq] at hst
        rw [← hst]
        show LogEntry.mk Level.error "Skipping file: Missing required columns" ∈
          (List.foldl loadStep
            ⟨[], [], [⟨Level.error, "Skipping file: Missing required columns"⟩]⟩ (r :: rs)).log
        rw [hδ]
        simp
      · split at hst
        · simp only [Except.ok.injEq] at hst
          rw [← hst]
          show LogEntry.mk Level.error "Skipping file: Missing required columns" ∈
            (List.foldl loadStep
              ⟨[], [], [⟨Level.error, "Skipping file: Missing required columns"⟩]⟩ (r :: rs)).log ++
              [⟨Level.info, "Combined data loaded"⟩]
          rw [hδ]
          simp
        · exact absurd hst (by simp)

/-- C4 counterexample: the row of C.csv with a missing kwh value is not
skipped — it ends up in the combined table — and nothing is logged at
warning level during the load. -/
theorem c4_counterexample :
    (load_data [exNaRowFile]).map
      (fun st => decide (CombinedRow.mk ⟨0, 60⟩ Cell.na "C" ∈ st.combined) &&
        st.log.all (fun e => e.level != Level.warning)) = Except.ok true := rfl

/-- C7: with zero input files load_data returns the empty model after a
warning, report emission succeeds with a stated total of 0, and
visualization produces no image and logs a warning instead. -/
theorem c7_empty_input :
    load_data [] = Except.ok ⟨[], [], [⟨Level.warning, "No CSV files found"⟩]⟩ ∧
    generate_summary_report ⟨[], [], [⟨Level.warning, "No CSV files found"⟩]⟩ =
      Except.ok ⟨0, [], (none, 0), none⟩ ∧
    create_dashboard ⟨[], [], [⟨Level.warning, "No CSV files found"⟩]⟩ =
      (none, [⟨Level.warning, "No data to visualize"⟩]) :=
  ⟨rfl, rfl, rfl⟩

end EnergyDashboard

namespace EnergyDashboard

theorem dailyKwhSum_append (l1 l2 : List (Timestamp × Cell)) (d : Int) :
    dailyKwhSum (l1 ++ l2) d = dailyKwhSum l1 d + dailyKwhSum l2 d := by
  simp [dailyKwhSum, List.filter_append]

theorem dailyKwhSum_perm (l1 l2 : List (Timestamp × Cell)) (h : l1.Perm l2) (d : Int) :
    dailyKwhSum l1 d = dailyKwhSum l2 d := by
  unfold dailyKwhSum
  exact List.Perm.sum_eq (List.Perm.map _ (List.Perm.filter _ h))

theorem dailyTotalsOf_eq (nm : String) (rs : List MeterReading)
    (hv : ∀ r ∈ rs, (parseTs r.timestamp).isSome) :
    ∃ prs, parseReadings rs = some prs ∧
      dailyTotalsOf nm rs = some (fun d => dailyKwhSum prs d) := by
  rcases he : rs.isEmpty with _ | _
  · obtain ⟨prs, hp⟩ := parseReadings_isSome rs hv
    refine ⟨prs, hp, ?_⟩
    have hpr : process_readings ⟨nm, rs, BDf.empty⟩ =
        (⟨nm, rs, BDf.processed (List.insertionSort tsLE prs)⟩, false) := by
      unfold process_readings
      rw [if_neg (by simp [he]), hp]
    unfold dailyTotalsOf
    rw [hpr]
    show some _ = _
    refine congrArg some (funext fun d => ?_)
    exact dailyKwhSum_perm _ _ (List.perm_insertionSort tsLE prs) d
  · obtain rfl : rs = [] := List.isEmpty_iff.mp he
    refine ⟨[], rfl, ?_⟩
    show some (fun _ => (0 : ℚ)) = _
    exact congrArg some (funext fun d => by simp [dailyKwhSum])

/-- C3: daily-sum aggregation is associative.  Splitting a source's
readings into two chunks, building the daily-sum projection of each chunk
and adding the values of matching calendar days gives the projection of
the whole.  (The hypotheses keep the statement on frames pandas can
actually resample: parseable timestamps and no string kwh cells.) -/
theorem c3_daily_totals_assoc (nm : String) (rs1 rs2 : List MeterReading)
    (hv : ∀ r ∈ rs1 ++ rs2, (parseTs r.timestamp).isSome)
    (_hnum : ∀ r ∈ rs1 ++ rs2, r.kwh.isStr = false) :
    ∃ f1 f2 f12, dailyTotalsOf nm rs1 = some f1 ∧ dailyTotalsOf nm rs2 = some f2 ∧
      dailyTotalsOf nm (rs1 ++ rs2) = some f12 ∧ ∀ d, f12 d = f1 d + f2 d := by
  have hv1 : ∀ r ∈ rs1, (parseTs r.timestamp).isSome := fun r hr =>
    hv r (List.mem_append_left _ hr)
  have hv2 : ∀ r ∈ rs2, (parseTs r.timestamp).isSome := fun r hr =>
    hv r (List.mem_append_right _ hr)
  obtain ⟨p1, hp1, hd1⟩ := dailyTotalsOf_eq nm rs1 hv1
  obtain ⟨p2, hp2, hd2⟩ := dailyTotalsOf_eq nm rs2 hv2
  obtain ⟨p12, hp12, hd12⟩ := dailyTotalsOf_eq nm (rs1 ++ rs2) hv
  have hsplit : p12 = p1 ++ p2 := by
    rw [parseReadings_append rs1 rs2 p1 p2 hp1 hp2] at hp12
    exact ((Option.some.injEq _ _).mp hp12).symm
  refine ⟨_, _, _, hd1, hd2, hd12, fun d => ?_⟩
  show dailyKwhSum p12 d = dailyKwhSum p1 d + dailyKwhSum p2 d
  rw [hsplit]
  exact dailyKwhSum_append p1 p2 d

/-- C3 witness: a concrete three-reading source split into chunks of one
and two readings. -/
theorem c3_witness :
    ∃ f1 f2 f12,
      dailyTotalsOf "A" [⟨TsCell.valid ⟨0, 10⟩, Cell.num 2⟩] = some f1 ∧
      dailyTotalsOf "A" [⟨TsCell.valid ⟨0, 20⟩, Cell.num 3⟩,
        ⟨TsCell.valid ⟨1, 0⟩, Cell.num 5⟩] = some f2 ∧
      dailyTotalsOf "A" ([⟨TsCell.valid ⟨0, 10⟩, Cell.num 2⟩] ++
        [⟨TsCell.valid ⟨0, 20⟩, Cell.num 3⟩, ⟨TsCell.valid ⟨1, 0⟩, Cell.num 5⟩]) = some f12 ∧
      ∀ d, f12 d = f1 d + f2 d := by
  refine c3_daily_totals_assoc "A" _ _ ?_ ?_
  · intro r hr
    fin_cases hr <;> rfl
  · intro r hr
    fin_cases hr <;> rfl

end EnergyDashboard

namespace EnergyDashboard

theorem hcStep_snd_le (h : Option String × ℚ) (s : BStat) : h.2 ≤ (hcStep h s).2 := by
  unfold hcStep
  split
  · exact le_of_lt (by assumption)
  · exact le_refl _

theorem hcFold_snd_le (l : List BStat) : ∀ h : Option String × ℚ,
    h.2 ≤ (List.foldl hcStep h l).2 := by
  induction l with
  | nil => intro h; exact le_refl _
  | cons x xs ih =>
    intro h
    exact le_trans (hcStep_snd_le h x) (ih (hcStep h x))

theorem hcFold_mem_le (l : List BStat) : ∀ (h : Option String × ℚ) (s : BStat), s ∈ l →
    s.total ≤ (List.foldl hcStep h l).2 := by
  induction l with
  | nil => intro h s hs; simp at hs
  | cons x xs ih =>
    intro h s hs
    rcases List.mem_cons.mp hs with rfl | hmem
    · refine le_trans ?_ (hcFold_snd_le xs (hcStep h s))
      unfold hcStep
      split
      · exact le_refl _
      · exact le_of_not_lt (by assumption)
    · exact ih (hcStep h x) s hmem

theorem hcFold_stay (l : List BStat) : ∀ h : Option String × ℚ,
    (List.foldl hcStep h l).2 = h.2 → List.foldl hcStep h l = h := by
  induction l with
  | nil => intro h _; rfl
  | cons x xs ih =>
    intro h heq
    by_cases hx : h.2 < x.total
    · exfalso
      have h1 : (hcStep h x).2 = x.total := by unfold hcStep; rw [if_pos hx]
      have h2 := hcFold_snd_le xs (hcStep h x)
      rw [h1] at h2
      rw [List.foldl_cons] at heq
      rw [heq] at h2
      exact absurd (lt_of_lt_of_le hx h2) (lt_irrefl _)
    · have h1 : hcStep h x = h := by unfold hcStep; rw [if_neg hx]
      rw [List.foldl_cons, h1] at heq ⊢
      exact ih h heq

theorem hcFold_decomp (l : List BStat) : ∀ h : Option String × ℚ,
    h.2 < (List.foldl hcStep h l).2 →
    ∃ l1 s l2, l = l1 ++ s :: l2 ∧ List.foldl hcStep h l = (some s.name, s.total) ∧
      (∀ y ∈ l1, y.total < s.total) ∧ (∀ y ∈ l2, y.total ≤ s.total) := by
  induction l with
  | nil => intro h hlt; exact absurd hlt (lt_irrefl _)
  | cons x xs ih =>
    intro h hlt
    rw [List.foldl_cons] at hlt ⊢
    by_cases hx : h.2 < x.total
    · have hstep : hcStep h x = (some x.name, x.total) := by unfold hcStep; rw [if_pos hx]
      by_cases h2 : x.total < (List.foldl hcStep (hcStep h x) xs).2
      · obtain ⟨l1, s, l2, hl, hf, hb, ha⟩ := ih (hcStep h x) (by rw [hstep]; rw [hstep] at h2; exact h2)
        refine ⟨x :: l1, s, l2, by rw [hl, List.cons_append], hf, ?_, ha⟩
        intro y hy
        rcases List.mem_cons.mp hy with rfl | hmem
        · have : (List.foldl hcStep (hcStep h y) xs).2 = s.total := by rw [hf]
          rw [this] at h2
          exact h2
        · exact hb y hmem
      · have hle := hcFold_snd_le xs (hcStep h x)
        rw [hstep] at hle h2 ⊢
        have heq : (List.foldl hcStep (some x.name, x.total) xs).2 = x.total :=
          le_antisymm (le_of_not_lt h2) hle
        have hidem := hcFold_stay xs (some x.name, x.total) heq
        refine ⟨[], x, xs, by simp, hidem, by simp, ?_⟩
        intro y hy
        have := hcFold_mem_le xs (some x.name, x.total) y hy
        rw [heq] at this
        exact this
    · have hstep : hcStep h x = h := by unfold hcStep; rw [if_neg hx]
      rw [hstep] at hlt ⊢
      obtain ⟨l1, s, l2, hl, hf, hb, ha⟩ := ih h hlt
      refine ⟨x :: l1, s, l2, by rw [hl, List.cons_append], hf, ?_, ha⟩
      intro y hy
      rcases List.mem_cons.mp hy with rfl | hmem
      · have hfs : (List.foldl hcStep h xs).2 = s.total := by rw [hf]
        rw [hfs] at hlt
        exact lt_of_le_of_lt (le_of_not_lt hx) hlt
      · exact hb y hmem

theorem except_bind_ok {ε α β : Type} (x : Except ε α) (f : α → Except ε β) (b : β)
    (h : Except.bind x f = Except.ok b) : ∃ a, x = Except.ok a ∧ f a = Except.ok b := by
  cases x with
  | ok a => exact ⟨a, rfl, h⟩
  | error e =>
    have hx : (Except.bind (Except.error e) f : Except ε β) = Except.error e := rfl
    rw [hx] at h
    exact Except.noConfusion h

theorem report_highest (st : DState) (r : Report)
    (h : generate_summary_report st = Except.ok r) :
    r.highestConsumer = highestConsumerOf r.buildingStats := by
  unfold generate_summary_report at h
  obtain ⟨total, hA, h⟩ := except_bind_ok _ _ _ h
  obtain ⟨stats, hB, h⟩ := except_bind_ok _ _ _ h
  obtain ⟨peak, hC, h⟩ := except_bind_ok _ _ _ h
  have hr : Report.mk total stats (highestConsumerOf stats) peak = r := by
    simpa using h
  rw [← hr]

/-- C5 (amended): when some reported source has a strictly positive
total, the highest-consuming source in the report is the first source
attaining the maximum total — every earlier source is strictly smaller,
every later one no bigger (first-seen wins on ties, via strict greater
than).  When every total is non-positive no source is reported at all
(see the counterexample), because the fold starts at (None, 0). -/
theorem c5_highest_consumer (st : DState) (r : Report)
    (hrep : generate_summary_report st = Except.ok r)
    (hpos : ∃ s ∈ r.buildingStats, 0 < s.total) :
    ∃ l1 s l2, r.buildingStats = l1 ++ s :: l2 ∧
      r.highestConsumer = (some s.name, s.total) ∧
      (∀ y ∈ l1, y.total < s.total) ∧ (∀ y ∈ l2, y.total ≤ s.total) := by
  rw [report_highest st r hrep]
  obtain ⟨s0, hs0, hs0pos⟩ := hpos
  have hlt : ((none, 0) : Option String × ℚ).2 <
      (List.foldl hcStep (none, 0) r.buildingStats).2 :=
    lt_of_lt_of_le hs0pos (hcFold_mem_le r.buildingStats (none, 0) s0 hs0)
  exact hcFold_decomp r.buildingStats (none, 0) hlt

end EnergyDashboard

namespace EnergyDashboard

/-- C5 witness: one source with total 5 is decomposed as the first-seen
maximum and reported. -/
theorem c5_witness :
    ∃ l1 s l2,
      (Report.mk 5 [⟨"A", 5, some 5, some 5⟩] (some "A", 5)
        (some ⟨⟨0, 0⟩, Cell.num 5, "A"⟩)).buildingStats = l1 ++ s :: l2 ∧
      (Report.mk 5 [⟨"A", 5, some 5, some 5⟩] (some "A", 5)
        (some ⟨⟨0, 0⟩, Cell.num 5, "A"⟩)).highestConsumer = (some s.name, s.total) ∧
      (∀ y ∈ l1, y.total < s.total) ∧ (∀ y ∈ l2, y.total ≤ s.total) := by
  have hrep : generate_summary_report
      ⟨[⟨"A", [⟨TsCell.valid ⟨0, 0⟩, Cell.num 5⟩], BDf.processed [(⟨0, 0⟩, Cell.num 5)]⟩],
        [⟨⟨0, 0⟩, Cell.num 5, "A"⟩], []⟩ =
      Except.ok (Report.mk 5 [⟨"A", 5, some 5, some 5⟩] (some "A", 5)
        (some ⟨⟨0, 0⟩, Cell.num 5, "A"⟩)) := by
    simp [generate_summary_report, buildingStatsOf, colSumE, colMean, colMax, numVals,
      highestConsumerOf, hcStep, peakRow, BDf.kwhCells, BDf.isEmptyDf, kwhNum, Cell.isStr,
      Except.bind, Except.map, Bind.bind, pure, Except.pure]
  refine c5_highest_consumer _ _ hrep ⟨⟨"A", 5, some 5, some 5⟩, by simp, by norm_num⟩

/-- C5 counterexample: a single source whose only reading is 0 kWh.  It
is the source with the largest total, yet the report names no source at
all (the fold starts at 0 and uses strict greater-than), so the claim
that the largest source is always reported fails. -/
theorem c5_counterexample :
    generate_summary_report exZeroState =
      Except.ok ⟨0, [⟨"A", 0, some 0, some 0⟩], (none, 0),
        some ⟨⟨0, 0⟩, Cell.num 0, "A"⟩⟩ ∧
    (none : Option String) ≠ some "A" := by
  constructor
  · simp [generate_summary_report, exZeroState, buildingStatsOf, colSumE, colMean, colMax,
      numVals, highestConsumerOf, hcStep, peakRow, BDf.kwhCells, BDf.isEmptyDf, kwhNum,
      Cell.isStr, Except.bind, Except.map, Bind.bind, pure, Except.pure]
  · simp

/-- C8: the three report artifacts (summary scalars, per-source table,
combined cleaned export) depend only on the in-memory model — the
buildings and the combined table.  Two states agreeing there, e.g. two
runs over identical input data whatever their logs, produce identical
output content. -/
theorem c8_deterministic_outputs (st1 st2 : DState)
    (hb : st1.buildings = st2.buildings) (hc : st1.combined = st2.combined) :
    reportOutputs st1 = reportOutputs st2 := by
  cases st1
  cases st2
  cases hb
  cases hc
  rfl

/-- C8 witness: two states with the same model but different logs. -/
theorem c8_witness :
    reportOutputs ⟨[], [], []⟩ =
      reportOutputs ⟨[], [], [⟨Level.info, "different run context"⟩]⟩ :=
  c8_deterministic_outputs _ _ rfl rfl

end EnergyDashboard

namespace Library

/-- C6: issuing a book that is already "issued" returns false and leaves
both the in-memory list and the persisted file untouched; issuing an
"available" book returns true, flips exactly that book's status to
"issued", and rewrites the whole catalog file to the serialization of the
new in-memory list — whatever the file held before. -/
theorem c6_issue_book (st : LibState) (isbn : String) (b : Book)
    (hfind : search_by_isbn st.books isbn = some b) :
    (b.status = "issued" → issueChoice st isbn = (st, false)) ∧
    (b.status = "available" →
      ∃ books1, issueChoice st isbn = (⟨books1, some (books1.map Book.to_dict)⟩, true) ∧
        books1 = updateFirstBook (fun x => x.isbn == pyStrip isbn)
          (fun _ => ⟨b.title, b.author, b.isbn, "issued"⟩) st.books) := by
  constructor
  · intro hst
    have hissue : b.issue = (b, false) := by
      unfold Book.issue
      rw [if_neg (by rw [hst]; decide)]
    simp [issueChoice, hfind, hissue]
  · intro hst
    have hissue : b.issue = (⟨b.title, b.author, b.isbn, "issued"⟩, true) := by
      unfold Book.issue
      rw [if_pos hst]
    refine ⟨updateFirstBook (fun x => x.isbn == pyStrip isbn)
      (fun _ => ⟨b.title, b.author, b.isbn, "issued"⟩) st.books, ?_, rfl⟩
    simp [issueChoice, hfind, hissue, save_books]

/-- C6 witness: a two-book catalog; issuing the available book "i2"
succeeds and rewrites the file, which held an empty list before. -/
theorem c6_witness :
    ((⟨"U", "B", "i2", "available"⟩ : Book).status = "issued" →
      issueChoice ⟨[⟨"T", "A", "i1", "issued"⟩, ⟨"U", "B", "i2", "available"⟩], some []⟩ "i2" =
        (⟨[⟨"T", "A", "i1", "issued"⟩, ⟨"U", "B", "i2", "available"⟩], some []⟩, false)) ∧
    ((⟨"U", "B", "i2", "available"⟩ : Book).status = "available" →
      ∃ books1,
        issueChoice ⟨[⟨"T", "A", "i1", "issued"⟩, ⟨"U", "B", "i2", "available"⟩], some []⟩ "i2" =
          (⟨books1, some (books1.map Book.to_dict)⟩, true) ∧
        books1 = updateFirstBook (fun x => x.isbn == pyStrip "i2")
          (fun _ => ⟨"U", "B", "i2", "issued"⟩)
          [⟨"T", "A", "i1", "issued"⟩, ⟨"U", "B", "i2", "available"⟩]) :=
  c6_issue_book ⟨[⟨"T", "A", "i1", "issued"⟩, ⟨"U", "B", "i2", "available"⟩], some []⟩
    "i2" ⟨"U", "B", "i2", "available"⟩ (by decide)

theorem normalizeStatus_mem (s : String) :
    normalizeStatus s = "available" ∨ normalizeStatus s = "issued" := by
  unfold normalizeStatus
  split
  · assumption
  · exact Or.inl rfl

theorem statusInv_mkBook (t a i s : String) : statusInv (mkBook t a i s) :=
  normalizeStatus_mem s

theorem statusInv_issue (b : Book) (h : statusInv b) : statusInv b.issue.1 := by
  unfold Book.issue
  split
  · exact Or.inr rfl
  · exact h

theorem statusInv_return (b : Book) (h : statusInv b) : statusInv b.return_book.1 := by
  unfold Book.return_book
  split
  · exact Or.inl rfl
  · exact h

theorem mem_updateFirstBook (p : Book → Bool) (g : Book → Book) :
    ∀ (l : List Book) (x : Book), x ∈ updateFirstBook p g l → x ∈ l ∨ ∃ y ∈ l, x = g y := by
  intro l
  induction l with
  | nil => intro x hx; simp [updateFirstBook] at hx
  | cons a as ih =>
    intro x hx
    by_cases ha : p a
    · simp only [updateFirstBook, ha, if_pos] at hx
      rcases List.mem_cons.mp hx with heq | hmem
      · exact Or.inr ⟨a, List.mem_cons_self a as, heq⟩
      · exact Or.inl (List.mem_cons_of_mem _ hmem)
    · simp only [updateFirstBook, ha, if_neg, not_false_iff] at hx
      rcases List.mem_cons.mp hx with heq | hmem
      · exact Or.inl (heq ▸ List.mem_cons_self a as)
      · rcases ih x hmem with h | ⟨y, hy, hxy⟩
        · exact Or.inl (List.mem_cons_of_mem _ h)
        · exact Or.inr ⟨y, List.mem_cons_of_mem _ hy, hxy⟩

theorem statusInv_applyOp (st : LibState) (hinv : ∀ b ∈ st.books, statusInv b)
    (op : LibOp) : ∀ b ∈ (applyOp st op).books, statusInv b := by
  cases op with
  | add t a i =>
    intro b hb
    simp only [applyOp] at hb
    unfold add_book at hb
    split at hb
    · exact hinv b hb
    · split at hb
      · exact hinv b hb
      · simp only [save_books] at hb
        rcases List.mem_append.mp hb with hm | hm
        · exact hinv b hm
        · obtain rfl : b = mkBook (pyStrip t) (pyStrip a) (pyStrip i) "available" := by
            simpa using hm
          exact statusInv_mkBook _ _ _ _
  | issue i =>
    intro b hb
    simp only [applyOp] at hb
    unfold issueChoice at hb
    split at hb
    · exact hinv b hb
    · rename_i bk heq
      split at hb
      · simp only [save_books] at hb
        rcases mem_updateFirstBook _ _ st.books b hb with hm | ⟨y, _, rfl⟩
        · exact hinv b hm
        · have hbk : statusInv bk :=
            hinv bk (List.mem_of_find?_eq_some heq)
          exact statusInv_issue bk hbk
      · exact hinv b hb
  | ret i =>
    intro b hb
    simp only [applyOp] at hb
    unfold returnChoice at hb
    split at hb
    · exact hinv b hb
    · rename_i bk heq
      split at hb
      · simp only [save_books] at hb
        rcases mem_updateFirstBook _ _ st.books b hb with hm | ⟨y, _, rfl⟩
        · exact hinv b hm
        · have hbk : statusInv bk :=
            hinv bk (List.mem_of_find?_eq_some heq)
          exact statusInv_return bk hbk
      · exact hinv b hb

theorem statusInv_applyOps (ops : List LibOp) : ∀ st : LibState,
    (∀ b ∈ st.books, statusInv b) → ∀ b ∈ (applyOps ops st).books, statusInv b := by
  induction ops with
  | nil => intro st hinv; exact hinv
  | cons op ops ih =>
    intro st hinv
    exact ih (applyOp st op) (statusInv_applyOp st hinv op)

/-- C10: every book's status is "available" or "issued" after any
sequence of add/issue/return operations on an inventory loaded from any
catalog file: the constructor normalises every loaded status and the
operations only move between the two values. -/
theorem c10_status_invariant (records : List BookRecord)
    (f0 : Option (List BookRecord)) (ops : List LibOp) :
    ∀ b ∈ (applyOps ops ⟨loadBooks records, f0⟩).books, statusInv b := by
  refine statusInv_applyOps ops ⟨loadBooks records, f0⟩ ?_
  intro b hb
  obtain ⟨r, _, rfl⟩ := List.mem_map.mp hb
  exact statusInv_mkBook _ _ _ _

/-- C10 witness: a record loaded with the denormalised status
" Available " then issued by ISBN with surrounding blanks ends up as
"issued", inside the invariant. -/
theorem c10_witness : statusInv ⟨"T", "A", "I", "issued"⟩ :=
  c10_status_invariant [⟨"T", "A", "I", " Available "⟩] none [LibOp.issue " I "]
    ⟨"T", "A", "I", "issued"⟩ (by decide)

end Library

namespace Weather

/-- C9 (amended): the two failure modes return the distinct codes 2
(input file missing) and 3 (load_and_clean failed), success returns 0,
and the interactive prompt fires exactly when the --csv argument is
omitted or empty (Python truthiness), not only when omitted. -/
theorem c9_exit_codes (a : Option String) (p : String) (fe lo : String → Bool) :
    ((wmain a p fe lo).2 = true ↔ (a = none ∨ a = some "")) ∧
    (wmain a p fe lo).1 =
      (if fe (resolvedPath a p) then (if lo (resolvedPath a p) then 0 else 3) else 2) := by
  unfold wmain resolvedPath
  cases a with
  | none =>
    cases hfe : fe (cleanPrompt p) <;> cases hlo : lo (cleanPrompt p) <;> simp [hfe, hlo]
  | some s =>
    by_cases hs : s = ""
    · subst hs
      cases hfe : fe (cleanPrompt p) <;> cases hlo : lo (cleanPrompt p) <;> simp [hfe, hlo]
    · cases hfe : fe s <;> cases hlo : lo s <;> simp [hfe, hlo, hs]

/-- C9 witness: with the path argument omitted and a missing file, the
prompt fires and the exit code is 2. -/
theorem c9_witness :
    (wmain none "data.csv" constFalse constFalse).1 = 2 ∧
    (wmain none "data.csv" constFalse constFalse).2 = true := by
  have h := c9_exit_codes none "data.csv" constFalse constFalse
  exact ⟨by rw [h.2]; rfl, h.1.mpr (Or.inl rfl)⟩

/-- C9 counterexample: an empty-string --csv argument is provided, not
omitted, yet the prompt fires — refuting that the prompt appears only
when the argument is omitted. -/
theorem c9_counterexample :
    wmain (some "") "w.csv" constTrue constTrue = (0, true) ∧
    some "" ≠ (none : Option String) :=
  ⟨rfl, by simp⟩

end Weather

namespace EnergyDashboard

/-- C4 witness: D.csv has a timestamp column but no kwh column; loading
it next to A.csv gives exactly the model of loading A.csv alone, with the
skip logged as an error. -/
theorem c4_witness :
    (load_data [exMissingKwhColFile, exBadKwhFile]).map
        (fun st => (st.buildings, st.combined)) =
      (load_data [exBadKwhFile]).map (fun st => (st.buildings, st.combined)) ∧
    ∀ st, load_data [exMissingKwhColFile, exBadKwhFile] = Except.ok st →
      LogEntry.mk Level.error "Skipping file: Missing required columns" ∈ st.log :=
  c4_missing_column_skips_file exMissingKwhColFile [exBadKwhFile] rfl (Or.inr rfl)

end EnergyDashboard
